import Mathlib

/-!
# Verification of the Discord-RPC transport/framing engine

Shallow embedding of `DiscordRPC/presence.py`: the framing codec used by
`RPC.send` / `RPC.recv` (8-byte little-endian header plus a compact-JSON
UTF-8 payload), the handshake reply dispatch of `RPC._do_handshake`, the
activity-payload construction of `RPC.set_activity`, the candidate-endpoint
enumeration of `DiscordWindows._connect` / `DiscordUnix._connect`, the
guaranteed-cleanup `RPC.close`, and the accumulating read loop
`RPC._recv_exactly`.

Machine integers are modelled as `Nat` with explicit `% 2 ^ 32` where the
source packs 32-bit fields; byte strings are `List Nat` (each element a
byte); Python `None` is `Option.none`; code that raises returns an explicit
outcome type.

JSON values are modelled by the mutually inductive `JValue`; `dumpsVal`
models `json.dumps(..., separators=(',', ':'))` (compact, `ensure_ascii`,
integer numbers — the only numbers this client exchanges), and the fuel
parser `parseVal` models `json.loads` on the whitespace-free documents this
codec produces.
-/

/-- Opcode constant from the source: `OP_HANDSHAKE = 0`. -/
def OP_HANDSHAKE : Nat := 0

/-- Opcode constant from the source: `OP_FRAME = 1`. -/
def OP_FRAME : Nat := 1

/-- Opcode constant from the source: `OP_CLOSE = 2`. -/
def OP_CLOSE : Nat := 2

/-- Opcode constant from the source: `OP_PING = 3`. -/
def OP_PING : Nat := 3

/-- Opcode constant from the source: `OP_PONG = 4`. -/
def OP_PONG : Nat := 4

mutual

/-- A JSON value: the data `json.dumps` / `json.loads` move across the wire.
Numbers are modelled as integers (the only numbers this client exchanges);
object members keep their insertion order, as Python dicts do. -/
inductive JValue : Type where
| jnull : JValue
| jbool (b : Bool) : JValue
| jnum (n : Int) : JValue
| jstr (s : List Char) : JValue
| jarr (xs : JArr) : JValue
| jobj (kvs : JObj) : JValue

/-- The element list of a JSON array. -/
inductive JArr : Type where
| anil : JArr
| acons (v : JValue) (rest : JArr) : JArr

/-- The member list of a JSON object (key, value, rest). -/
inductive JObj : Type where
| onil : JObj
| ocons (k : List Char) (v : JValue) (rest : JObj) : JObj

end

/-- The characters of a string literal, the spelling used for JSON keys. -/
def strL (s : String) : List Char := s.data

/-- Left brace character (0x7b). -/
def lbrace : Char := Char.ofNat 123

/-- Right brace character (0x7d). -/
def rbrace : Char := Char.ofNat 125

/-- Fuel-indexed digit emitter; any fuel above `n` is enough, since the
value shrinks by a factor of ten per step. -/
def natDigitsAux : Nat → Nat → List Char
| 0, _ => []
| f + 1, n =>
  if n < 10 then [Nat.digitChar n]
  else natDigitsAux f (n / 10) ++ [Nat.digitChar (n % 10)]

/-- Decimal digits of `n`, most significant first, as produced by Python's
`str` / `json.dumps` for a non-negative integer. -/
def natDigits (n : Nat) : List Char := natDigitsAux (n + 1) n

/-- Decimal rendering of an integer, as `json.dumps` prints it. -/
def dumpsInt (n : Int) : List Char :=
  if n < 0 then '-' :: natDigits n.natAbs else natDigits n.natAbs

/-- Four lowercase hex digits, Python's `'\\u%04x'` formatting. -/
def toHex4 (n : Nat) : List Char :=
  [Nat.digitChar (n / 4096 % 16), Nat.digitChar (n / 256 % 16),
   Nat.digitChar (n / 16 % 16), Nat.digitChar (n % 16)]

/-- How `json.dumps` (with its default `ensure_ascii=True`) renders one
character of a string: the two-character shortcuts for backslash, quote and
the five control shortcuts, `\uXXXX` (with a surrogate pair above U+FFFF)
for everything else outside `0x20..0x7e`, and the raw character otherwise. -/
def escChar (c : Char) : List Char :=
  if c = '\\' then ['\\', '\\']
  else if c = '"' then ['\\', '"']
  else if c.toNat = 8 then ['\\', 'b']
  else if c.toNat = 9 then ['\\', 't']
  else if c.toNat = 10 then ['\\', 'n']
  else if c.toNat = 12 then ['\\', 'f']
  else if c.toNat = 13 then ['\\', 'r']
  else if c.toNat < 32 ∨ 126 < c.toNat then
    if c.toNat < 65536 then '\\' :: 'u' :: toHex4 c.toNat
    else ('\\' :: 'u' :: toHex4 (55296 + (c.toNat - 65536) / 1024)) ++
         ('\\' :: 'u' :: toHex4 (56320 + (c.toNat - 65536) % 1024))
  else [c]

/-- String-body rendering: each character escaped per `escChar`. -/
def escapeList : List Char → List Char
| [] => []
| c :: s => escChar c ++ escapeList s

mutual

/-- Compact serialization of a JSON value: `json.dumps(v, separators=(',', ':'))`. -/
def dumpsVal : JValue → List Char
| .jnull => ['n', 'u', 'l', 'l']
| .jbool true => ['t', 'r', 'u', 'e']
| .jbool false => ['f', 'a', 'l', 's', 'e']
| .jnum n => dumpsInt n
| .jstr s => '"' :: (escapeList s ++ ['"'])
| .jarr .anil => ['[', ']']
| .jarr (.acons v rest) => '[' :: (dumpsVal v ++ dumpsArrTail rest)
| .jobj .onil => [lbrace, rbrace]
| .jobj (.ocons k v rest) =>
    lbrace :: ('"' :: ((escapeList k ++ ['"', ':']) ++ (dumpsVal v ++ dumpsObjTail rest)))

/-- Serialization of the remaining elements of an array after one element
has been rendered: the closing bracket, or a bare comma and the rest. -/
def dumpsArrTail : JArr → List Char
| .anil => [']']
| .acons v rest => ',' :: (dumpsVal v ++ dumpsArrTail rest)

/-- Serialization of the remaining members of an object after one member
has been rendered: the closing brace, or a bare comma and the rest
(`"key":value`, compact separators). -/
def dumpsObjTail : JObj → List Char
| .onil => [rbrace]
| .ocons k v rest =>
    ',' :: ('"' :: ((escapeList k ++ ['"', ':']) ++ (dumpsVal v ++ dumpsObjTail rest)))

end

/-- Decimal digit test on the code point, `0-9`. -/
def isDigitC (c : Char) : Bool := 48 ≤ c.toNat && c.toNat ≤ 57

/-- Value of one hexadecimal digit, either case, as `json.loads` accepts. -/
def hexVal (c : Char) : Option Nat :=
  if 48 ≤ c.toNat && c.toNat ≤ 57 then some (c.toNat - 48)
  else if 97 ≤ c.toNat && c.toNat ≤ 102 then some (c.toNat - 87)
  else if 65 ≤ c.toNat && c.toNat ≤ 70 then some (c.toNat - 55)
  else none

/-- Value of a four-digit hexadecimal escape body. -/
def hex4 (a b c d : Char) : Option Nat :=
  match hexVal a, hexVal b, hexVal c, hexVal d with
  | some x, some y, some z, some w => some (((x * 16 + y) * 16 + z) * 16 + w)
  | _, _, _, _ => none

/-- JSON string-body scanner (after the opening quote), modelling Python's
strict `py_scanstring`: a plain character (raw control characters below
0x20 rejected), the short backslash escapes, and `\\uXXXX` with surrogate
pairs recombined.  Returns the decoded characters and the input after the
closing quote.  The fuel counts scanner steps; one step per produced
character, so any fuel above the input length is enough. -/
def parseStringBody : Nat → List Char → Option (List Char × List Char)
| 0, _ => none
| _ + 1, [] => none
| f + 1, c :: s =>
  if c = '"' then some ([], s)
  else if c = '\\' then
    match s with
    | [] => none
    | e :: s2 =>
      if e = '"' then (parseStringBody f s2).map (fun p => ('"' :: p.1, p.2))
      else if e = '\\' then (parseStringBody f s2).map (fun p => ('\\' :: p.1, p.2))
      else if e = '/' then (parseStringBody f s2).map (fun p => ('/' :: p.1, p.2))
      else if e = 'b' then (parseStringBody f s2).map (fun p => (Char.ofNat 8 :: p.1, p.2))
      else if e = 'f' then (parseStringBody f s2).map (fun p => (Char.ofNat 12 :: p.1, p.2))
      else if e = 'n' then (parseStringBody f s2).map (fun p => (Char.ofNat 10 :: p.1, p.2))
      else if e = 'r' then (parseStringBody f s2).map (fun p => (Char.ofNat 13 :: p.1, p.2))
      else if e = 't' then (parseStringBody f s2).map (fun p => (Char.ofNat 9 :: p.1, p.2))
      else if e = 'u' then
        match s2 with
        | h1 :: h2 :: h3 :: h4 :: s3 =>
          match hex4 h1 h2 h3 h4 with
          | none => none
          | some m =>
            if 55296 ≤ m && m ≤ 56319 then
              match s3 with
              | b1 :: b2 :: g1 :: g2 :: g3 :: g4 :: s4 =>
                if b1 = '\\' && b2 = 'u' then
                  match hex4 g1 g2 g3 g4 with
                  | none => none
                  | some m2 =>
                    if 56320 ≤ m2 && m2 ≤ 57343 then
                      (parseStringBody f s4).map
                        (fun p => (Char.ofNat (65536 + (m - 55296) * 1024 + (m2 - 56320)) :: p.1, p.2))
                    else none
                else none
              | _ => none
            else (parseStringBody f s3).map (fun p => (Char.ofNat m :: p.1, p.2))
        | _ => none
      else none
  else if c.toNat < 32 then none
  else (parseStringBody f s).map (fun p => (c :: p.1, p.2))

/-- Longest digit prefix and the remainder (the number scanner's span). -/
def takeDigits : List Char → List Char × List Char
| [] => ([], [])
| c :: s =>
  if isDigitC c then
    let p := takeDigits s
    (c :: p.1, p.2)
  else ([], c :: s)

/-- Numeric value of a digit string, most significant first. -/
def digitsVal (ds : List Char) : Nat := ds.foldl (fun a c => 10 * a + (c.toNat - 48)) 0

mutual

/-- Fuel-indexed JSON document scanner, modelling `json.loads`' value
dispatch on the whitespace-free documents `dumpsVal` emits (integer
numbers; fuel bounds nesting, every recursive step spends one unit). -/
def parseVal : Nat → List Char → Option (JValue × List Char)
| 0, _ => none
| _ + 1, [] => none
| f + 1, c :: s =>
  if c = '"' then (parseStringBody (s.length + 1) s).map (fun p => (JValue.jstr p.1, p.2))
  else if c = '[' then
    match s with
    | [] => none
    | d :: s2 =>
      if d = ']' then some (.jarr .anil, s2)
      else (parseArrElems f (d :: s2)).map (fun p => (JValue.jarr p.1, p.2))
  else if c = lbrace then
    match s with
    | [] => none
    | d :: s2 =>
      if d = rbrace then some (.jobj .onil, s2)
      else (parseObjMembers f (d :: s2)).map (fun p => (JValue.jobj p.1, p.2))
  else if c = 'n' then
    match s with
    | 'u' :: 'l' :: 'l' :: s2 => some (.jnull, s2)
    | _ => none
  else if c = 't' then
    match s with
    | 'r' :: 'u' :: 'e' :: s2 => some (.jbool true, s2)
    | _ => none
  else if c = 'f' then
    match s with
    | 'a' :: 'l' :: 's' :: 'e' :: s2 => some (.jbool false, s2)
    | _ => none
  else if c = '-' then
    match takeDigits s with
    | ([], _) => none
    | (ds, r) => some (.jnum (-(Int.ofNat (digitsVal ds))), r)
  else if isDigitC c then
    match takeDigits (c :: s) with
    | ([], _) => none
    | (ds, r) => some (.jnum (Int.ofNat (digitsVal ds)), r)
  else none

/-- Scanner for the elements of a non-empty array after `[`: a value, then
a comma and more elements or the closing bracket. -/
def parseArrElems : Nat → List Char → Option (JArr × List Char)
| 0, _ => none
| f + 1, s =>
  match parseVal f s with
  | none => none
  | some (v, r) =>
    match r with
    | [] => none
    | d :: r2 =>
      if d = ',' then (parseArrElems f r2).map (fun p => (JArr.acons v p.1, p.2))
      else if d = ']' then some (.acons v .anil, r2)
      else none

/-- Scanner for the members of a non-empty object after the opening brace:
a quoted key, a colon, a value, then a comma and more members or the
closing brace. -/
def parseObjMembers : Nat → List Char → Option (JObj × List Char)
| 0, _ => none
| f + 1, s =>
  match s with
  | [] => none
  | c :: s0 =>
    if c = '"' then
      match parseStringBody (s0.length + 1) s0 with
      | none => none
      | some (k, s2) =>
        match s2 with
        | [] => none
        | d2 :: s3 =>
          if d2 = ':' then
            match parseVal f s3 with
            | none => none
            | some (v, s4) =>
              match s4 with
              | [] => none
              | d :: s5 =>
                if d = ',' then (parseObjMembers f s5).map (fun p => (JObj.ocons k v p.1, p.2))
                else if d = rbrace then some (.ocons k v .onil, s5)
                else none
          else none
    else none

end

/-- Full-document decode, modelling `json.loads`: the whole input must be
one value with nothing left over; the fuel `length + 1` dominates any
nesting the input can express. -/
def loads (s : List Char) : Option JValue :=
  match parseVal (s.length + 1) s with
  | some (v, []) => some v
  | _ => none

/-- UTF-8 encoding of one character, as `str.encode('utf-8')` produces. -/
def utf8EncodeChar (c : Char) : List Nat :=
  let n := c.toNat
  if n < 128 then [n]
  else if n < 2048 then [192 + n / 64, 128 + n % 64]
  else if n < 65536 then [224 + n / 4096, 128 + n / 64 % 64, 128 + n % 64]
  else [240 + n / 262144, 128 + n / 4096 % 64, 128 + n / 64 % 64, 128 + n % 64]

/-- UTF-8 encoding of a string, byte by byte. -/
def utf8Encode : List Char → List Nat
| [] => []
| c :: s => utf8EncodeChar c ++ utf8Encode s

/-- Strict UTF-8 decoding, as `bytes.decode('utf-8')`: continuation bytes
checked, overlong forms, surrogates and out-of-range values rejected.  The
fuel counts decoded characters; any fuel above the byte count is enough. -/
def utf8Decode : Nat → List Nat → Option (List Char)
| 0, _ => none
| _ + 1, [] => some []
| f + 1, b :: bs =>
  if b < 128 then (utf8Decode f bs).map (Char.ofNat b :: ·)
  else if b < 192 then none
  else if b < 224 then
    match bs with
    | b2 :: bs2 =>
      if 128 ≤ b2 && b2 < 192 then
        let n := (b - 192) * 64 + (b2 - 128)
        if 128 ≤ n then (utf8Decode f bs2).map (Char.ofNat n :: ·) else none
      else none
    | _ => none
  else if b < 240 then
    match bs with
    | b2 :: b3 :: bs2 =>
      if (128 ≤ b2 && b2 < 192) && (128 ≤ b3 && b3 < 192) then
        let n := (b - 224) * 4096 + (b2 - 128) * 64 + (b3 - 128)
        if 2048 ≤ n && (n < 55296 || 57343 < n) then
          (utf8Decode f bs2).map (Char.ofNat n :: ·)
        else none
      else none
    | _ => none
  else if b < 248 then
    match bs with
    | b2 :: b3 :: b4 :: bs2 =>
      if ((128 ≤ b2 && b2 < 192) && (128 ≤ b3 && b3 < 192)) && (128 ≤ b4 && b4 < 192) then
        let n := (b - 240) * 262144 + (b2 - 128) * 4096 + (b3 - 128) * 64 + (b4 - 128)
        if 65536 ≤ n && n < 1114112 then (utf8Decode f bs2).map (Char.ofNat n :: ·) else none
      else none
    | _ => none
  else none

/-- Little-endian 4-byte encoding of one unsigned 32-bit field, one half of
`struct.pack("<II", ...)`. -/
def packU32 (n : Nat) : List Nat :=
  [n % 256, n / 256 % 256, n / 65536 % 256, n / 16777216 % 256]

/-- Little-endian unsigned 32-bit value of a 4-byte list, one half of
`struct.unpack("<II", ...)`. -/
def unpackU32 : List Nat → Nat
| [a, b, c, d] => a + 256 * b + 65536 * c + 16777216 * d
| _ => 0

/-- The byte stream `RPC.send(data, op)` writes: `struct.pack("<II", op,
len(payload))` followed by the UTF-8 encoding of the compact JSON dump
(the two `_write` calls concatenated on the wire). -/
def sendBytes (op : Nat) (v : JValue) : List Nat :=
  let payload := utf8Encode (dumpsVal v)
  (packU32 op ++ packU32 payload.length) ++ payload

/-- `RPC.recv` reading one frame from the start of a byte stream: an 8-byte
header via `_recv_exactly(8)` split as two little-endian u32 fields, then
exactly `length` payload bytes, UTF-8-decoded and JSON-parsed.  `none`
models the failure modes: blocking forever on a stream with too few bytes,
or a decode exception. -/
def recvFromStream (stream : List Nat) : Option (Nat × JValue) :=
  if stream.length < 8 then none
  else
    let op := unpackU32 ((stream.take 8).take 4)
    let len := unpackU32 ((stream.take 8).drop 4)
    let rest := stream.drop 8
    if rest.length < len then none
    else
      match utf8Decode ((rest.take len).length + 1) (rest.take len) with
      | none => none
      | some chars =>
        match loads chars with
        | none => none
        | some v => some (op, v)

/-! ## Character and digit facts -/

/-- Every `Char` holds a Unicode scalar value: below 0x110000 and outside
the surrogate block. -/
theorem char_toNat_valid (c : Char) :
    c.toNat < 1114112 ∧ (c.toNat < 55296 ∨ 57343 < c.toNat) := by
  have h := c.valid
  simp only [UInt32.isValidChar, Nat.isValidChar, Char.toNat] at h ⊢
  omega

/-- Characters with equal code points are equal. -/
theorem char_toNat_inj {a b : Char} (h : a.toNat = b.toNat) : a = b := by
  have := congrArg Char.ofNat h
  rwa [Char.ofNat_toNat, Char.ofNat_toNat] at this

/-- Code point of `Nat.digitChar` below 10: the ASCII digit block. -/
theorem digitChar_toNat {m : Nat} (h : m < 10) : (Nat.digitChar m).toNat = 48 + m := by
  interval_cases m <;> rfl

/-- Code point of `Nat.digitChar` for 10–15: lowercase `a`–`f`. -/
theorem digitChar_toNat_hex {m : Nat} (h1 : 10 ≤ m) (h2 : m < 16) :
    (Nat.digitChar m).toNat = 87 + m := by
  interval_cases m <;> rfl

/-- `Nat.digitChar` of a value below 10 passes the digit test. -/
theorem isDigitC_digitChar {m : Nat} (h : m < 10) : isDigitC (Nat.digitChar m) = true := by
  simp only [isDigitC, digitChar_toNat h, Bool.and_eq_true, decide_eq_true_eq]
  omega

/-- A digit character is none of the characters the value scanner
dispatches on first. -/
theorem isDigitC_ne {c : Char} (h : isDigitC c = true) :
    c ≠ '"' ∧ c ≠ '[' ∧ c ≠ lbrace ∧ c ≠ 'n' ∧ c ≠ 't' ∧ c ≠ 'f' ∧ c ≠ '-' ∧
    c ≠ ']' ∧ c ≠ rbrace ∧ c ≠ ',' := by
  simp only [isDigitC, Bool.and_eq_true, decide_eq_true_eq] at h
  refine ⟨?_, ?_, ?_, ?_, ?_, ?_, ?_, ?_, ?_, ?_⟩ <;>
    (intro hc; subst hc; revert h; decide)

/-- `hexVal` inverts `Nat.digitChar` on values below 16. -/
theorem hexVal_digitChar {m : Nat} (h : m < 16) : hexVal (Nat.digitChar m) = some m := by
  interval_cases m <;> rfl

/-- `hex4` inverts `toHex4` on values below 0x10000. -/
theorem hex4_toHex4 {m : Nat} (h : m < 65536) :
    hex4 (Nat.digitChar (m / 4096 % 16)) (Nat.digitChar (m / 256 % 16))
      (Nat.digitChar (m / 16 % 16)) (Nat.digitChar (m % 16)) = some m := by
  simp only [hex4, hexVal_digitChar (show m / 4096 % 16 < 16 by omega),
    hexVal_digitChar (show m / 256 % 16 < 16 by omega),
    hexVal_digitChar (show m / 16 % 16 < 16 by omega),
    hexVal_digitChar (show m % 16 < 16 by omega), Option.some.injEq]
  omega

/-! ## Number printing and scanning -/

/-- With enough fuel the digit emitter is never empty. -/
theorem natDigitsAux_ne_nil (f n : Nat) (h : n < f) : natDigitsAux f n ≠ [] := by
  cases f with
  | zero => omega
  | succ f =>
    rw [natDigitsAux]
    split
    · simp
    · simp

/-- `natDigits` is never empty. -/
theorem natDigits_ne_nil (n : Nat) : natDigits n ≠ [] :=
  natDigitsAux_ne_nil (n + 1) n (by omega)

/-- Every character the digit emitter produces is a decimal digit. -/
theorem natDigitsAux_digits (f : Nat) : ∀ n, n < f → ∀ c ∈ natDigitsAux f n, isDigitC c = true := by
  induction f with
  | zero => intro n h; omega
  | succ f ih =>
    intro n h c hc
    rw [natDigitsAux] at hc
    split at hc
    · next h10 => simp at hc; subst hc; exact isDigitC_digitChar h10
    · next h10 =>
      rcases List.mem_append.mp hc with h1 | h1
      · exact ih (n / 10) (by omega) c h1
      · rcases List.mem_singleton.mp h1 with rfl
        exact isDigitC_digitChar (Nat.mod_lt _ (by omega))

/-- Every character `natDigits` emits is a decimal digit. -/
theorem natDigits_digits (n : Nat) : ∀ c ∈ natDigits n, isDigitC c = true :=
  natDigitsAux_digits (n + 1) n (by omega)

/-- Folding the digit accumulator over the emitted digits recovers `n` on
top of a shifted accumulator. -/
theorem digitsVal_aux (f : Nat) : ∀ n, n < f → ∀ a : Nat,
    (natDigitsAux f n).foldl (fun a c => 10 * a + (c.toNat - 48)) a =
      a * 10 ^ (natDigitsAux f n).length + n := by
  induction f with
  | zero => intro n h; omega
  | succ f ih =>
    intro n h a
    rw [natDigitsAux]
    split
    · next h10 =>
      simp only [List.foldl_cons, List.foldl_nil, List.length_singleton, pow_one,
        digitChar_toNat h10]
      omega
    · next h10 =>
      rw [List.foldl_append, ih (n / 10) (by omega) a]
      simp only [List.foldl_cons, List.foldl_nil, List.length_append, List.length_singleton]
      rw [digitChar_toNat (Nat.mod_lt _ (by omega)), pow_succ, ← Nat.mul_assoc]
      have hdm := Nat.div_add_mod n 10
      generalize a * 10 ^ (natDigitsAux f (n / 10)).length = c
      omega

/-- `digitsVal` inverts `natDigits`. -/
theorem digitsVal_natDigits (n : Nat) : digitsVal (natDigits n) = n := by
  have := digitsVal_aux (n + 1) n (by omega) 0
  simpa [digitsVal, natDigits] using this

/-- The digit span of a digit string followed by a non-digit boundary is
the digit string itself. -/
theorem takeDigits_append {l r : List Char} (hl : ∀ c ∈ l, isDigitC c = true)
    (hr : r = [] ∨ ∃ c t, r = c :: t ∧ isDigitC c = false) :
    takeDigits (l ++ r) = (l, r) := by
  induction l with
  | nil =>
    simp only [List.nil_append]
    rcases hr with rfl | ⟨c, t, rfl, hc⟩
    · rfl
    · rw [takeDigits, hc]
      simp
  | cons c l ih =>
    have hc := hl c (List.mem_cons_self c l)
    rw [List.cons_append, takeDigits, hc]
    simp only [if_true]
    rw [ih (fun x hx => hl x (List.mem_cons_of_mem _ hx))]

/-! ## String scanning inverts string rendering -/

/-- Reduction of the scanner on a `\uXXXX` escape head. -/
theorem psb_unicode (f : Nat) (g1 g2 g3 g4 : Char) (t : List Char) :
    parseStringBody (f + 1) ('\\' :: 'u' :: g1 :: g2 :: g3 :: g4 :: t) =
      (match hex4 g1 g2 g3 g4 with
      | none => none
      | some m =>
        if 55296 ≤ m && m ≤ 56319 then
          match t with
          | b1 :: b2 :: k1 :: k2 :: k3 :: k4 :: t2 =>
            if b1 = '\\' && b2 = 'u' then
              match hex4 k1 k2 k3 k4 with
              | none => none
              | some m2 =>
                if 56320 ≤ m2 && m2 ≤ 57343 then
                  (parseStringBody f t2).map
                    (fun p => (Char.ofNat (65536 + (m - 55296) * 1024 + (m2 - 56320)) :: p.1, p.2))
                else none
            else none
          | _ => none
        else (parseStringBody f t).map (fun p => (Char.ofNat m :: p.1, p.2))) := rfl

/-- Reduction of the scanner on an unescaped character. -/
theorem psb_raw (f : Nat) (c : Char) (t : List Char) (h1 : c ≠ '"') (h2 : c ≠ '\\')
    (h3 : ¬ c.toNat < 32) :
    parseStringBody (f + 1) (c :: t) = (parseStringBody f t).map (fun p => (c :: p.1, p.2)) := by
  rw [parseStringBody.eq_def]
  dsimp only
  rw [if_neg h1, if_neg h2, if_neg h3]

/-- The scanner undoes `escChar`: scanning the escape of `c` prepends `c`
and spends one unit of fuel. -/
theorem parseStringBody_escChar (f : Nat) (c : Char) (tail : List Char) :
    parseStringBody (f + 1) (escChar c ++ tail) =
      (parseStringBody f tail).map (fun p => (c :: p.1, p.2)) := by
  have hv := char_toNat_valid c
  by_cases h1 : c = '\\'
  · subst h1; rfl
  by_cases h2 : c = '"'
  · subst h2; rfl
  by_cases h3 : c.toNat = 8
  · have hc : c = Char.ofNat 8 := char_toNat_inj (by rw [h3]; rfl)
    subst hc; rfl
  by_cases h4 : c.toNat = 9
  · have hc : c = Char.ofNat 9 := char_toNat_inj (by rw [h4]; rfl)
    subst hc; rfl
  by_cases h5 : c.toNat = 10
  · have hc : c = Char.ofNat 10 := char_toNat_inj (by rw [h5]; rfl)
    subst hc; rfl
  by_cases h6 : c.toNat = 12
  · have hc : c = Char.ofNat 12 := char_toNat_inj (by rw [h6]; rfl)
    subst hc; rfl
  by_cases h7 : c.toNat = 13
  · have hc : c = Char.ofNat 13 := char_toNat_inj (by rw [h7]; rfl)
    subst hc; rfl
  by_cases h9 : c.toNat < 32 ∨ 126 < c.toNat
  · rw [escChar, if_neg h1, if_neg h2, if_neg h3, if_neg h4, if_neg h5, if_neg h6, if_neg h7,
      if_pos h9]
    by_cases h10 : c.toNat < 65536
    · rw [if_pos h10, toHex4]
      rw [show ('\\' :: 'u' :: [Nat.digitChar (c.toNat / 4096 % 16),
            Nat.digitChar (c.toNat / 256 % 16), Nat.digitChar (c.toNat / 16 % 16),
            Nat.digitChar (c.toNat % 16)]) ++ tail =
          '\\' :: 'u' :: Nat.digitChar (c.toNat / 4096 % 16) ::
            Nat.digitChar (c.toNat / 256 % 16) :: Nat.digitChar (c.toNat / 16 % 16) ::
            Nat.digitChar (c.toNat % 16) :: tail from rfl]
      rw [psb_unicode, hex4_toHex4 h10]
      have hsur : ¬ ((55296 ≤ c.toNat && c.toNat ≤ 56319) = true) := by
        simp only [Bool.and_eq_true, decide_eq_true_eq, not_and]
        omega
      dsimp only
      rw [if_neg hsur, Char.ofNat_toNat]
    · rw [if_neg h10]
      have hhi : 55296 + (c.toNat - 65536) / 1024 < 65536 := by omega
      have hlo : 56320 + (c.toNat - 65536) % 1024 < 65536 := by
        have := Nat.mod_lt (c.toNat - 65536) (show 0 < 1024 by omega)
        omega
      rw [toHex4, toHex4]
      rw [show (('\\' :: 'u' :: [Nat.digitChar ((55296 + (c.toNat - 65536) / 1024) / 4096 % 16),
            Nat.digitChar ((55296 + (c.toNat - 65536) / 1024) / 256 % 16),
            Nat.digitChar ((55296 + (c.toNat - 65536) / 1024) / 16 % 16),
            Nat.digitChar ((55296 + (c.toNat - 65536) / 1024) % 16)]) ++
          ('\\' :: 'u' :: [Nat.digitChar ((56320 + (c.toNat - 65536) % 1024) / 4096 % 16),
            Nat.digitChar ((56320 + (c.toNat - 65536) % 1024) / 256 % 16),
            Nat.digitChar ((56320 + (c.toNat - 65536) % 1024) / 16 % 16),
            Nat.digitChar ((56320 + (c.toNat - 65536) % 1024) % 16)])) ++ tail =
          '\\' :: 'u' :: Nat.digitChar ((55296 + (c.toNat - 65536) / 1024) / 4096 % 16) ::
            Nat.digitChar ((55296 + (c.toNat - 65536) / 1024) / 256 % 16) ::
            Nat.digitChar ((55296 + (c.toNat - 65536) / 1024) / 16 % 16) ::
            Nat.digitChar ((55296 + (c.toNat - 65536) / 1024) % 16) ::
          '\\' :: 'u' :: Nat.digitChar ((56320 + (c.toNat - 65536) % 1024) / 4096 % 16) ::
            Nat.digitChar ((56320 + (c.toNat - 65536) % 1024) / 256 % 16) ::
            Nat.digitChar ((56320 + (c.toNat - 65536) % 1024) / 16 % 16) ::
            Nat.digitChar ((56320 + (c.toNat - 65536) % 1024) % 16) :: tail from rfl]
      rw [psb_unicode, hex4_toHex4 hhi]
      have hsur : (55296 ≤ 55296 + (c.toNat - 65536) / 1024 &&
          55296 + (c.toNat - 65536) / 1024 ≤ 56319) = true := by
        simp only [Bool.and_eq_true, decide_eq_true_eq]
        constructor
        · omega
        · have : (c.toNat - 65536) / 1024 ≤ 1023 := by
            have hb : c.toNat - 65536 < 1048576 := by omega
            omega
          omega
      dsimp only
      rw [if_pos hsur]
      rw [show (('\\' : Char) = '\\' && ('u' : Char) = 'u') = true from rfl]
      rw [if_pos rfl, hex4_toHex4 hlo]
      have hlor : (56320 ≤ 56320 + (c.toNat - 65536) % 1024 &&
          56320 + (c.toNat - 65536) % 1024 ≤ 57343) = true := by
        simp only [Bool.and_eq_true, decide_eq_true_eq]
        have := Nat.mod_lt (c.toNat - 65536) (show 0 < 1024 by omega)
        constructor <;> omega
      dsimp only
      rw [if_pos hlor]
      have harith : 65536 + (55296 + (c.toNat - 65536) / 1024 - 55296) * 1024 +
          (56320 + (c.toNat - 65536) % 1024 - 56320) = c.toNat := by
        have := Nat.div_add_mod (c.toNat - 65536) 1024
        omega
      rw [harith, Char.ofNat_toNat]
  · have h32 : ¬ c.toNat < 32 := by omega
    rw [escChar, if_neg h1, if_neg h2, if_neg h3, if_neg h4, if_neg h5, if_neg h6, if_neg h7,
      if_neg h9, List.singleton_append]
    exact psb_raw f c tail h2 h1 h32

/-- The scanner undoes `escapeList` up to the closing quote: the rendered
body of `s` followed by a quote scans back to exactly `s`. -/
theorem parseStringBody_escapeList (s : List Char) : ∀ (f : Nat) (tail : List Char),
    s.length < f →
    parseStringBody f (escapeList s ++ ('"' :: tail)) = some (s, tail) := by
  induction s with
  | nil =>
    intro f tail hf
    obtain ⟨f', rfl⟩ : ∃ f', f = f' + 1 := ⟨f - 1, by omega⟩
    rfl
  | cons c s ih =>
    intro f tail hf
    obtain ⟨f', rfl⟩ : ∃ f', f = f' + 1 := ⟨f - 1, by omega⟩
    rw [escapeList, List.append_assoc, parseStringBody_escChar,
      ih f' tail (by simp only [List.length_cons] at hf; omega)]
    rfl

/-! ## Value-scanner reduction lemmas -/

/-- Reduction: `null` literal. -/
theorem pv_null (f : Nat) (rest : List Char) :
    parseVal (f + 1) ('n' :: 'u' :: 'l' :: 'l' :: rest) = some (.jnull, rest) := rfl

/-- Reduction: `true` literal. -/
theorem pv_true (f : Nat) (rest : List Char) :
    parseVal (f + 1) ('t' :: 'r' :: 'u' :: 'e' :: rest) = some (.jbool true, rest) := rfl

/-- Reduction: `false` literal. -/
theorem pv_false (f : Nat) (rest : List Char) :
    parseVal (f + 1) ('f' :: 'a' :: 'l' :: 's' :: 'e' :: rest) = some (.jbool false, rest) := rfl

/-- Reduction: string opening quote. -/
theorem pv_quote (f : Nat) (s : List Char) :
    parseVal (f + 1) ('"' :: s) =
      (parseStringBody (s.length + 1) s).map (fun p => (JValue.jstr p.1, p.2)) := rfl

/-- Reduction: array opening bracket with a visible next character. -/
theorem pv_lbrack (f : Nat) (d : Char) (s2 : List Char) :
    parseVal (f + 1) ('[' :: d :: s2) =
      (if d = ']' then some (.jarr .anil, s2)
       else (parseArrElems f (d :: s2)).map (fun p => (JValue.jarr p.1, p.2))) := rfl

/-- Reduction: object opening brace with a visible next character. -/
theorem pv_lbrace (f : Nat) (d : Char) (s2 : List Char) :
    parseVal (f + 1) (lbrace :: d :: s2) =
      (if d = rbrace then some (.jobj .onil, s2)
       else (parseObjMembers f (d :: s2)).map (fun p => (JValue.jobj p.1, p.2))) := rfl

/-- Reduction: leading minus of a number. -/
theorem pv_minus (f : Nat) (s : List Char) :
    parseVal (f + 1) ('-' :: s) =
      (match takeDigits s with
      | ([], _) => none
      | (ds, r) => some (.jnum (-(Int.ofNat (digitsVal ds))), r)) := rfl

/-- Reduction: leading digit of a number. -/
theorem pv_digit (f : Nat) (c : Char) (s : List Char) (h : isDigitC c = true) :
    parseVal (f + 1) (c :: s) =
      (match takeDigits (c :: s) with
      | ([], _) => none
      | (ds, r) => some (.jnum (Int.ofNat (digitsVal ds)), r)) := by
  obtain ⟨n1, n2, n3, n4, n5, n6, n7, _, _, _⟩ := isDigitC_ne h
  rw [parseVal.eq_def]
  dsimp only
  rw [if_neg n1, if_neg n2, if_neg n3, if_neg n4, if_neg n5, if_neg n6, if_neg n7, if_pos h]

/-- Reduction: one element step of the array scanner. -/
theorem pae_step (f : Nat) (s : List Char) :
    parseArrElems (f + 1) s =
      (match parseVal f s with
      | none => none
      | some (v, r) =>
        match r with
        | [] => none
        | d :: r2 =>
          if d = ',' then (parseArrElems f r2).map (fun p => (JArr.acons v p.1, p.2))
          else if d = ']' then some (.acons v .anil, r2)
          else none) := rfl

/-- Reduction: one member step of the object scanner, on a quoted key. -/
theorem pom_step (f : Nat) (s0 : List Char) :
    parseObjMembers (f + 1) ('"' :: s0) =
      (match parseStringBody (s0.length + 1) s0 with
      | none => none
      | some (k, s2) =>
        match s2 with
        | [] => none
        | d2 :: s3 =>
          if d2 = ':' then
            match parseVal f s3 with
            | none => none
            | some (v, s4) =>
              match s4 with
              | [] => none
              | d :: s5 =>
                if d = ',' then (parseObjMembers f s5).map (fun p => (JObj.ocons k v p.1, p.2))
                else if d = rbrace then some (.ocons k v .onil, s5)
                else none
          else none) := rfl

/-! ## Heads and lengths of rendered values -/

/-- Every character escape is at least one character long. -/
theorem escChar_length_pos (c : Char) : 0 < (escChar c).length := by
  rw [escChar]
  repeat' split
  all_goals simp [toHex4]

/-- Rendering a string body never shortens it. -/
theorem escapeList_length_ge (s : List Char) : s.length ≤ (escapeList s).length := by
  induction s with
  | nil => simp [escapeList]
  | cons c s ih =>
    rw [escapeList, List.length_append, List.length_cons]
    have := escChar_length_pos c
    omega

/-- A rendered value is non-empty and starts with neither a closing
bracket nor a closing brace. -/
theorem dumpsVal_head (v : JValue) :
    ∃ c t, dumpsVal v = c :: t ∧ c ≠ ']' ∧ c ≠ rbrace := by
  cases v with
  | jnull => exact ⟨'n', ['u', 'l', 'l'], by rw [dumpsVal], by decide, by decide⟩
  | jbool b => cases b with
    | true => exact ⟨'t', ['r', 'u', 'e'], by rw [dumpsVal], by decide, by decide⟩
    | false => exact ⟨'f', ['a', 'l', 's', 'e'], by rw [dumpsVal], by decide, by decide⟩
  | jnum n =>
    cases n with
    | ofNat m =>
      obtain ⟨d, t, hdt⟩ : ∃ d t, natDigits m = d :: t := by
        cases hnd : natDigits m with
        | nil => exact absurd hnd (natDigits_ne_nil m)
        | cons d t => exact ⟨d, t, rfl⟩
      have hd : isDigitC d = true := natDigits_digits m d (by rw [hdt]; exact List.mem_cons_self d t)
      obtain ⟨_, _, _, _, _, _, _, hr1, hr2, _⟩ := isDigitC_ne hd
      refine ⟨d, t, ?_, hr1, hr2⟩
      rw [dumpsVal, dumpsInt, if_neg (by simp : ¬ (Int.ofNat m) < 0)]
      simpa using hdt
    | negSucc m =>
      refine ⟨'-', natDigits (m + 1), ?_, by decide, by decide⟩
      rw [dumpsVal, dumpsInt, if_pos (Int.negSucc_lt_zero m)]
      simp
  | jstr s => exact ⟨'"', escapeList s ++ ['"'], by rw [dumpsVal], by decide, by decide⟩
  | jarr xs => cases xs with
    | anil => exact ⟨'[', [']'], by rw [dumpsVal], by decide, by decide⟩
    | acons v rest =>
      exact ⟨'[', dumpsVal v ++ dumpsArrTail rest, by rw [dumpsVal], by decide, by decide⟩
  | jobj kvs => cases kvs with
    | onil => exact ⟨lbrace, [rbrace], by rw [dumpsVal], by decide, by decide⟩
    | ocons k v rest =>
      exact ⟨lbrace, '"' :: ((escapeList k ++ ['"', ':']) ++ (dumpsVal v ++ dumpsObjTail rest)),
        by rw [dumpsVal], by decide, by decide⟩

/-- The tail of a rendered array starts with a bracket or a comma — in
particular never with a digit. -/
theorem dumpsArrTail_head (xs : JArr) :
    ∃ c t, dumpsArrTail xs = c :: t ∧ isDigitC c = false := by
  cases xs with
  | anil => exact ⟨']', [], by rw [dumpsArrTail], by decide⟩
  | acons v rest => exact ⟨',', _, by rw [dumpsArrTail], by decide⟩

/-- The tail of a rendered object starts with a brace or a comma — in
particular never with a digit. -/
theorem dumpsObjTail_head (kvs : JObj) :
    ∃ c t, dumpsObjTail kvs = c :: t ∧ isDigitC c = false := by
  cases kvs with
  | onil => exact ⟨rbrace, [], by rw [dumpsObjTail], by decide⟩
  | ocons k v rest => exact ⟨',', _, by rw [dumpsObjTail], by decide⟩

/-! ## Scanning inverts rendering: numbers and strings -/

/-- A trailing context a number scan must not run into: empty, or starting
with a non-digit. -/
def numBoundary (rest : List Char) : Prop :=
  rest = [] ∨ ∃ c t, rest = c :: t ∧ isDigitC c = false

/-- Scanning a rendered integer followed by a boundary recovers it. -/
theorem parseVal_dumpsInt (f : Nat) (n : Int) (rest : List Char) (hb : numBoundary rest) :
    parseVal (f + 1) (dumpsInt n ++ rest) = some (.jnum n, rest) := by
  cases n with
  | ofNat m =>
    rw [dumpsInt, if_neg (by simp : ¬ (Int.ofNat m) < 0),
      (by simp : (Int.ofNat m).natAbs = m)]
    obtain ⟨d, t, hdt⟩ : ∃ d t, natDigits m = d :: t := by
      cases hnd : natDigits m with
      | nil => exact absurd hnd (natDigits_ne_nil m)
      | cons d t => exact ⟨d, t, rfl⟩
    have hall : ∀ c ∈ natDigits m, isDigitC c = true := natDigits_digits m
    have hd : isDigitC d = true := hall d (by rw [hdt]; exact List.mem_cons_self d t)
    have htake : takeDigits (natDigits m ++ rest) = (natDigits m, rest) :=
      takeDigits_append hall hb
    rw [hdt] at htake ⊢
    rw [List.cons_append, pv_digit f d (t ++ rest) hd, ← List.cons_append, htake]
    dsimp only
    rw [← hdt, digitsVal_natDigits]
  | negSucc m =>
    rw [dumpsInt, if_pos (Int.negSucc_lt_zero m),
      (by simp : (Int.negSucc m).natAbs = m + 1)]
    obtain ⟨d, t, hdt⟩ : ∃ d t, natDigits (m + 1) = d :: t := by
      cases hnd : natDigits (m + 1) with
      | nil => exact absurd hnd (natDigits_ne_nil (m + 1))
      | cons d t => exact ⟨d, t, rfl⟩
    have hall : ∀ c ∈ natDigits (m + 1), isDigitC c = true := natDigits_digits (m + 1)
    have htake : takeDigits (natDigits (m + 1) ++ rest) = (natDigits (m + 1), rest) :=
      takeDigits_append hall hb
    rw [List.cons_append, pv_minus, htake, hdt]
    dsimp only
    rw [← hdt, digitsVal_natDigits]
    have heq : -(Int.ofNat (m + 1)) = Int.negSucc m := by
      rw [Int.negSucc_eq]
      simp
    rw [heq]

/-- Scanning a rendered string recovers it, for any trailing context. -/
theorem parseVal_jstr (f : Nat) (s rest : List Char) :
    parseVal (f + 1) (dumpsVal (.jstr s) ++ rest) = some (.jstr s, rest) := by
  rw [dumpsVal, List.cons_append, pv_quote]
  have hre : (escapeList s ++ ['"']) ++ rest = escapeList s ++ ('"' :: rest) := by
    rw [List.append_assoc]
    rfl
  rw [hre, parseStringBody_escapeList s _ rest
    (by
      have h1 := escapeList_length_ge s
      simp only [List.length_append, List.length_cons]
      omega)]
  rfl

/-! ## Scanning inverts rendering: values, arrays, objects -/

mutual

/-- Scanning a rendered value with enough fuel recovers exactly that value
and leaves the trailing context untouched. -/
theorem parseVal_dumpsVal (v : JValue) (f : Nat) (rest : List Char)
    (hf : (dumpsVal v).length < f) (hb : numBoundary rest) :
    parseVal f (dumpsVal v ++ rest) = some (v, rest) := by
  obtain ⟨f', rfl⟩ : ∃ f', f = f' + 1 := ⟨f - 1, by omega⟩
  cases v with
  | jnull =>
    rw [dumpsVal]
    exact pv_null f' rest
  | jbool b =>
    cases b with
    | false => rw [dumpsVal]; exact pv_false f' rest
    | true => rw [dumpsVal]; exact pv_true f' rest
  | jnum n =>
    rw [dumpsVal]
    exact parseVal_dumpsInt f' n rest hb
  | jstr s => exact parseVal_jstr f' s rest
  | jarr xs =>
    cases xs with
    | anil =>
      rw [dumpsVal]
      rw [show (['[', ']'] : List Char) ++ rest = '[' :: ']' :: rest from rfl]
      rw [pv_lbrack, if_pos rfl]
    | acons w r =>
      rw [dumpsVal] at hf ⊢
      obtain ⟨c0, t0, hct, hc1, _⟩ := dumpsVal_head w
      rw [List.cons_append, hct, List.cons_append, List.cons_append, pv_lbrack, if_neg hc1,
        ← List.cons_append, ← List.cons_append, ← hct]
      rw [parseArr_dumpsArr w r f' rest (by simp only [List.length_cons] at hf; omega)]
      rfl
  | jobj kvs =>
    cases kvs with
    | onil =>
      rw [dumpsVal]
      rw [show ([lbrace, rbrace] : List Char) ++ rest = lbrace :: rbrace :: rest from rfl]
      rw [pv_lbrace, if_pos rfl]
    | ocons k w r =>
      rw [dumpsVal] at hf ⊢
      rw [List.cons_append, List.cons_append, pv_lbrace,
        if_neg (by decide : ¬ ('"' : Char) = rbrace), ← List.cons_append]
      rw [parseObj_dumpsObj k w r f' rest (by simp only [List.length_cons] at hf ⊢; omega)]
      rfl
termination_by sizeOf v
decreasing_by
  all_goals simp_wf
  all_goals try subst_vars
  all_goals try simp
  all_goals omega

/-- Scanning one rendered element and the rendered tail of an array with
enough fuel recovers the element list. -/
theorem parseArr_dumpsArr (v : JValue) (xs : JArr) (f : Nat) (rest : List Char)
    (hf : (dumpsVal v ++ dumpsArrTail xs).length < f) :
    parseArrElems f ((dumpsVal v ++ dumpsArrTail xs) ++ rest) = some (.acons v xs, rest) := by
  obtain ⟨f', rfl⟩ : ∃ f', f = f' + 1 := ⟨f - 1, by omega⟩
  rw [pae_step, List.append_assoc]
  cases xs with
  | anil =>
    rw [show dumpsArrTail .anil ++ rest = ']' :: rest from by
      rw [dumpsArrTail, List.singleton_append]]
    rw [parseVal_dumpsVal v f' (']' :: rest)
      (by rw [dumpsArrTail] at hf
          simp only [List.length_append, List.length_cons, List.length_nil] at hf
          omega)
      (Or.inr ⟨']', rest, rfl, by decide⟩)]
    dsimp only
    rw [if_neg (by decide : ¬ (']' : Char) = ','), if_pos rfl]
  | acons w r =>
    rw [show dumpsArrTail (.acons w r) ++ rest =
        ',' :: ((dumpsVal w ++ dumpsArrTail r) ++ rest) from by
      rw [dumpsArrTail, List.cons_append, List.append_assoc]]
    rw [parseVal_dumpsVal v f' (',' :: ((dumpsVal w ++ dumpsArrTail r) ++ rest))
      (by rw [dumpsArrTail] at hf
          simp only [List.length_append, List.length_cons] at hf
          omega)
      (Or.inr ⟨',', _, rfl, by decide⟩)]
    dsimp only
    rw [if_pos rfl, parseArr_dumpsArr w r f' rest
      (by rw [dumpsArrTail] at hf
          simp only [List.length_append, List.length_cons] at hf ⊢
          omega)]
    rfl
termination_by 1 + sizeOf v + sizeOf xs
decreasing_by
  all_goals simp_wf
  all_goals try subst_vars
  all_goals try simp
  all_goals omega

/-- Scanning one rendered member and the rendered tail of an object with
enough fuel recovers the member list. -/
theorem parseObj_dumpsObj (k : List Char) (v : JValue) (kvs : JObj) (f : Nat)
    (rest : List Char)
    (hf : ('"' :: ((escapeList k ++ ['"', ':']) ++ (dumpsVal v ++ dumpsObjTail kvs))).length < f) :
    parseObjMembers f
        (('"' :: ((escapeList k ++ ['"', ':']) ++ (dumpsVal v ++ dumpsObjTail kvs))) ++ rest) =
      some (.ocons k v kvs, rest) := by
  obtain ⟨f', rfl⟩ : ∃ f', f = f' + 1 := ⟨f - 1, by omega⟩
  rw [List.cons_append, pom_step]
  rw [show ((escapeList k ++ ['"', ':']) ++ (dumpsVal v ++ dumpsObjTail kvs)) ++ rest =
      escapeList k ++ ('"' :: (':' :: (dumpsVal v ++ (dumpsObjTail kvs ++ rest)))) from by
    simp [List.append_assoc]]
  rw [parseStringBody_escapeList k _ (':' :: (dumpsVal v ++ (dumpsObjTail kvs ++ rest)))
    (by
      have h1 := escapeList_length_ge k
      simp only [List.length_append, List.length_cons]
      omega)]
  dsimp only
  rw [if_pos rfl]
  cases kvs with
  | onil =>
    rw [show dumpsObjTail .onil ++ rest = rbrace :: rest from by
      rw [dumpsObjTail, List.singleton_append]]
    rw [parseVal_dumpsVal v f' (rbrace :: rest)
      (by rw [dumpsObjTail] at hf
          simp only [List.length_append, List.length_cons, List.length_nil] at hf
          omega)
      (Or.inr ⟨rbrace, rest, rfl, by decide⟩)]
    dsimp only
    rw [if_neg (by decide : ¬ rbrace = ','), if_pos rfl]
  | ocons k2 v2 r =>
    rw [show dumpsObjTail (.ocons k2 v2 r) ++ rest =
        ',' :: (('"' :: ((escapeList k2 ++ ['"', ':']) ++ (dumpsVal v2 ++ dumpsObjTail r))) ++ rest)
        from by rw [dumpsObjTail, List.cons_append]]
    rw [parseVal_dumpsVal v f'
      (',' :: (('"' :: ((escapeList k2 ++ ['"', ':']) ++ (dumpsVal v2 ++ dumpsObjTail r))) ++ rest))
      (by rw [dumpsObjTail] at hf
          simp only [List.length_append, List.length_cons] at hf
          omega)
      (Or.inr ⟨',', _, rfl, by decide⟩)]
    dsimp only
    rw [if_pos rfl, parseObj_dumpsObj k2 v2 r f' rest
      (by rw [dumpsObjTail] at hf
          simp only [List.length_append, List.length_cons] at hf ⊢
          omega)]
    rfl
termination_by 1 + sizeOf v + sizeOf kvs
decreasing_by
  all_goals simp_wf
  all_goals try subst_vars
  all_goals try simp
  all_goals omega

end

/-! ## ASCII reasoning: compact `ensure_ascii` output and UTF-8 -/

/-- `Nat.digitChar` of a hexadecimal digit value lands in ASCII. -/
theorem digitChar_lt_128 {m : Nat} (h : m < 16) : (Nat.digitChar m).toNat < 128 := by
  interval_cases m <;> decide

/-- A decimal digit character is ASCII. -/
theorem isDigitC_lt_128 {c : Char} (h : isDigitC c = true) : c.toNat < 128 := by
  simp only [isDigitC, Bool.and_eq_true, decide_eq_true_eq] at h
  omega

/-- The four hex digits of `toHex4` are ASCII. -/
theorem toHex4_ascii (n : Nat) : ∀ d ∈ toHex4 n, d.toNat < 128 := by
  intro d hd
  simp [toHex4] at hd
  rcases hd with rfl | rfl | rfl | rfl
  all_goals (apply digitChar_lt_128; omega)

/-- Everything `escChar` emits is ASCII (that is what `ensure_ascii`
guarantees). -/
theorem escChar_ascii (c : Char) : ∀ d ∈ escChar c, d.toNat < 128 := by
  intro d hd
  rw [escChar] at hd
  split at hd
  · simp at hd; rcases hd with rfl | rfl <;> decide
  split at hd
  · simp at hd; rcases hd with rfl | rfl <;> decide
  split at hd
  · simp at hd; rcases hd with rfl | rfl <;> decide
  split at hd
  · simp at hd; rcases hd with rfl | rfl <;> decide
  split at hd
  · simp at hd; rcases hd with rfl | rfl <;> decide
  split at hd
  · simp at hd; rcases hd with rfl | rfl <;> decide
  split at hd
  · simp at hd; rcases hd with rfl | rfl <;> decide
  split at hd
  · split at hd
    · rcases List.mem_cons.mp hd with rfl | h2
      · decide
      rcases List.mem_cons.mp h2 with rfl | h3
      · decide
      exact toHex4_ascii _ d h3
    · rcases List.mem_append.mp hd with h | h
      all_goals rcases List.mem_cons.mp h with rfl | h2
      all_goals try decide
      all_goals rcases List.mem_cons.mp h2 with rfl | h3
      all_goals try decide
      all_goals exact toHex4_ascii _ d h3
  · next h =>
    simp at hd
    subst hd
    omega

/-- Everything `escapeList` emits is ASCII. -/
theorem escapeList_ascii (s : List Char) : ∀ d ∈ escapeList s, d.toNat < 128 := by
  induction s with
  | nil => intro d hd; simp [escapeList] at hd
  | cons c s ih =>
    intro d hd
    rw [escapeList] at hd
    rcases List.mem_append.mp hd with h | h
    · exact escChar_ascii c d h
    · exact ih d h

/-- Every character of a rendered non-negative number is ASCII. -/
theorem natDigits_ascii (n : Nat) : ∀ c ∈ natDigits n, c.toNat < 128 :=
  fun c hc => isDigitC_lt_128 (natDigits_digits n c hc)

mutual

/-- Compact `ensure_ascii` rendering of a value is pure ASCII. -/
theorem dumpsVal_ascii (v : JValue) : ∀ c ∈ dumpsVal v, c.toNat < 128 := by
  cases v with
  | jnull => intro c hc; rw [dumpsVal] at hc; simp at hc; rcases hc with rfl | rfl | rfl <;> decide
  | jbool b =>
    cases b with
    | false =>
      intro c hc; rw [dumpsVal] at hc; simp at hc
      rcases hc with rfl | rfl | rfl | rfl | rfl <;> decide
    | true =>
      intro c hc; rw [dumpsVal] at hc; simp at hc
      rcases hc with rfl | rfl | rfl | rfl <;> decide
  | jnum n =>
    intro c hc
    rw [dumpsVal, dumpsInt] at hc
    split at hc
    · rcases List.mem_cons.mp hc with rfl | h
      · decide
      · exact natDigits_ascii _ c h
    · exact natDigits_ascii _ c hc
  | jstr s =>
    intro c hc
    rw [dumpsVal] at hc
    rcases List.mem_cons.mp hc with rfl | h
    · decide
    · rcases List.mem_append.mp h with h2 | h2
      · exact escapeList_ascii s c h2
      · simp at h2; subst h2; decide
  | jarr xs =>
    cases xs with
    | anil => intro c hc; rw [dumpsVal] at hc; simp at hc; rcases hc with rfl | rfl <;> decide
    | acons w r =>
      intro c hc
      rw [dumpsVal] at hc
      rcases List.mem_cons.mp hc with rfl | h
      · decide
      · rcases List.mem_append.mp h with h2 | h2
        · exact dumpsVal_ascii w c h2
        · exact dumpsArrTail_ascii r c h2
  | jobj kvs =>
    cases kvs with
    | onil => intro c hc; rw [dumpsVal] at hc; simp at hc; rcases hc with rfl | rfl <;> decide
    | ocons k w r =>
      intro c hc
      rw [dumpsVal] at hc
      rcases List.mem_cons.mp hc with rfl | h
      · decide
      rcases List.mem_cons.mp h with rfl | h2
      · decide
      rcases List.mem_append.mp h2 with h3 | h3
      · rcases List.mem_append.mp h3 with h4 | h4
        · exact escapeList_ascii k c h4
        · simp at h4; rcases h4 with rfl | rfl <;> decide
      rcases List.mem_append.mp h3 with h4 | h4
      · exact dumpsVal_ascii w c h4
      · exact dumpsObjTail_ascii r c h4
termination_by sizeOf v
decreasing_by
  all_goals simp_wf
  all_goals try subst_vars
  all_goals try simp
  all_goals omega

/-- The rendered tail of an array is pure ASCII. -/
theorem dumpsArrTail_ascii (xs : JArr) : ∀ c ∈ dumpsArrTail xs, c.toNat < 128 := by
  cases xs with
  | anil => intro c hc; rw [dumpsArrTail] at hc; simp at hc; subst hc; decide
  | acons w r =>
    intro c hc
    rw [dumpsArrTail] at hc
    rcases List.mem_cons.mp hc with rfl | h
    · decide
    rcases List.mem_append.mp h with h2 | h2
    · exact dumpsVal_ascii w c h2
    · exact dumpsArrTail_ascii r c h2
termination_by 1 + sizeOf xs
decreasing_by
  all_goals simp_wf
  all_goals try subst_vars
  all_goals try simp
  all_goals omega

/-- The rendered tail of an object is pure ASCII. -/
theorem dumpsObjTail_ascii (kvs : JObj) : ∀ c ∈ dumpsObjTail kvs, c.toNat < 128 := by
  cases kvs with
  | onil => intro c hc; rw [dumpsObjTail] at hc; simp at hc; subst hc; decide
  | ocons k w r =>
    intro c hc
    rw [dumpsObjTail] at hc
    rcases List.mem_cons.mp hc with rfl | h
    · decide
    rcases List.mem_cons.mp h with rfl | h2
    · decide
    rcases List.mem_append.mp h2 with h3 | h3
    · rcases List.mem_append.mp h3 with h4 | h4
      · exact escapeList_ascii k c h4
      · simp at h4; rcases h4 with rfl | rfl <;> decide
    rcases List.mem_append.mp h3 with h4 | h4
    · exact dumpsVal_ascii w c h4
    · exact dumpsObjTail_ascii r c h4
termination_by 1 + sizeOf kvs
decreasing_by
  all_goals simp_wf
  all_goals try subst_vars
  all_goals try simp
  all_goals omega

end

/-- UTF-8 encoding of an ASCII string is the identity on code points. -/
theorem utf8Encode_ascii (s : List Char) (h : ∀ c ∈ s, c.toNat < 128) :
    utf8Encode s = s.map Char.toNat := by
  induction s with
  | nil => rfl
  | cons c s ih =>
    rw [utf8Encode, utf8EncodeChar]
    rw [if_pos (h c (List.mem_cons_self c s))]
    rw [ih (fun d hd => h d (List.mem_cons_of_mem _ hd))]
    rfl

/-- UTF-8 decoding of ASCII code points recovers the characters, for any
fuel above the byte count. -/
theorem utf8Decode_ascii (s : List Char) : ∀ (f : Nat), s.length < f →
    (∀ c ∈ s, c.toNat < 128) →
    utf8Decode f (s.map Char.toNat) = some s := by
  induction s with
  | nil =>
    intro f hf _
    obtain ⟨f', rfl⟩ : ∃ f', f = f' + 1 := ⟨f - 1, by omega⟩
    rfl
  | cons c s ih =>
    intro f hf h
    obtain ⟨f', rfl⟩ : ∃ f', f = f' + 1 := ⟨f - 1, by omega⟩
    rw [List.map_cons, utf8Decode.eq_def]
    dsimp only
    rw [if_pos (h c (List.mem_cons_self c s))]
    rw [ih f' (by simp only [List.length_cons] at hf; omega)
      (fun d hd => h d (List.mem_cons_of_mem _ hd))]
    rw [Char.ofNat_toNat]
    rfl

/-- Unpacking inverts packing for any unsigned 32-bit value. -/
theorem unpackU32_packU32 {n : Nat} (h : n < 4294967296) : unpackU32 (packU32 n) = n := by
  rw [packU32, unpackU32]
  omega

/-- `loads` recovers any value from its compact rendering. -/
theorem loads_dumpsVal (v : JValue) : loads (dumpsVal v) = some v := by
  rw [loads]
  rw [show dumpsVal v = dumpsVal v ++ [] from (List.append_nil _).symm]
  rw [List.length_append]
  rw [parseVal_dumpsVal v ((dumpsVal v).length + [].length + 1) []
    (by simp) (Or.inl rfl)]

/-! ## Claim C1: framing round-trip -/

/-- C1: Framing round-trip.  For every op code and every JSON value,
encoding with `RPC.send`'s framing (compact JSON, 8-byte header of two
little-endian uint32 fields — op then payload byte length — followed by
the UTF-8 payload) and then decoding that byte stream with `RPC.recv`'s
logic yields back exactly the same (op, value) pair.  The hypotheses are
`struct.pack("<II", ...)`'s 32-bit field ranges. -/
theorem C1_framing_roundtrip (op : Nat) (v : JValue)
    (hop : op < 4294967296)
    (hlen : (utf8Encode (dumpsVal v)).length < 4294967296) :
    recvFromStream (sendBytes op v) = some (op, v) := by
  have hascii := dumpsVal_ascii v
  have henc : utf8Encode (dumpsVal v) = (dumpsVal v).map Char.toNat :=
    utf8Encode_ascii _ hascii
  have hlenmap : ((dumpsVal v).map Char.toNat).length = (dumpsVal v).length :=
    List.length_map _ _
  have hhdr : (packU32 op ++ packU32 (utf8Encode (dumpsVal v)).length).length = 8 := by
    simp [packU32]
  have hh4 : (packU32 op).length = 4 := by simp [packU32]
  rw [sendBytes, recvFromStream]
  simp only []
  rw [List.take_left' hhdr, List.drop_left' hhdr, List.take_left' hh4, List.drop_left' hh4]
  rw [unpackU32_packU32 hop, unpackU32_packU32 hlen]
  rw [if_neg (by
    simp only [List.length_append, packU32, List.length_cons, List.length_nil]
    omega)]
  rw [List.take_length]
  rw [if_neg (by omega)]
  rw [henc]
  rw [utf8Decode_ascii (dumpsVal v) _ (by simp [List.length_map]) hascii]
  dsimp only
  rw [loads_dumpsVal v]

/-- C1 witness: the round-trip at a concrete frame — op `OP_FRAME`, payload
the empty JSON object. -/
theorem C1_framing_roundtrip_witness :
    OP_FRAME < 4294967296 ∧
    (utf8Encode (dumpsVal (JValue.jobj JObj.onil))).length < 4294967296 ∧
    recvFromStream (sendBytes OP_FRAME (JValue.jobj JObj.onil)) =
      some (OP_FRAME, JValue.jobj JObj.onil) :=
  ⟨by decide, by decide,
    C1_framing_roundtrip OP_FRAME (JValue.jobj JObj.onil) (by decide) (by decide)⟩

/-! ## Handshake reply dispatch (`RPC._do_handshake`, lines 59-66) -/

/-- Outcome of the handshake reply dispatch: success, close-then-raise,
raise with the payload attached, or a key/type error raised by the
subscription inside the condition itself. -/
inductive HandshakeOutcome where
| ready : HandshakeOutcome
| closedAndError (payload : JValue) : HandshakeOutcome
| errorWithPayload (payload : JValue) : HandshakeOutcome
| fieldError (key : List Char) : HandshakeOutcome

/-- Python subscription `obj[key]` on a (JSON-decoded) object: the stored
value for `key`, with a later duplicate winning as in a Python dict;
`none` models the `KeyError` on a missing key. -/
def jGetObj : JObj → List Char → Option JValue
| .onil, _ => none
| .ocons k v rest, key =>
  match jGetObj rest key with
  | some w => some w
  | none => if k == key then some v else none

/-- Python subscription `data[key]` on an arbitrary decoded JSON value:
`none` models both `KeyError` (missing key) and `TypeError` (value not a
dict). -/
def jGet : JValue → List Char → Option JValue
| .jobj kvs, key => jGetObj kvs key
| _, _ => none

/-- Python equality `value == "literal"` between a decoded JSON value and
a string literal. -/
def isStrVal (v : JValue) (s : List Char) : Bool :=
  match v with
  | .jstr t => t == s
  | _ => false

/-- What `_do_handshake` does after `send_recv`, as a function of the reply
`(ret_op, ret_data)`: `ready` models the successful return; `closedAndError`
models `self.close()` followed by `raise RuntimeError(ret_data)`;
`errorWithPayload` models `raise RuntimeError(ret_data)` alone; `fieldError`
models the `KeyError`/`TypeError` that `ret_data['cmd']` / `ret_data['evt']`
raises while the `and`-chain is being evaluated (short-circuit order as in
the source). -/
def doHandshakeReply (ret_op : Nat) (ret_data : JValue) : HandshakeOutcome :=
  if ret_op = OP_FRAME then
    match jGet ret_data (strL "cmd") with
    | none => .fieldError (strL "cmd")
    | some c =>
      if isStrVal c (strL "DISPATCH") then
        match jGet ret_data (strL "evt") with
        | none => .fieldError (strL "evt")
        | some e =>
          if isStrVal e (strL "READY") then .ready
          else .errorWithPayload ret_data
      else .errorWithPayload ret_data
  else if ret_op = OP_CLOSE then .closedAndError ret_data
  else .errorWithPayload ret_data

/-- Whether the raised error of a handshake outcome carries the whole
unexpected payload (a `RuntimeError(ret_data)`). -/
def carriesPayload : HandshakeOutcome → Bool
| .errorWithPayload _ => true
| .closedAndError _ => true
| _ => false

/-- Whether the transport close path ran before the error surfaced. -/
def closesTransport : HandshakeOutcome → Bool
| .closedAndError _ => true
| _ => false

/-- `isStrVal` decides equality with a string value. -/
theorem isStrVal_iff (c : JValue) (s : List Char) : isStrVal c s = true ↔ c = .jstr s := by
  cases c <;> simp [isStrVal]

/-- C2 counterexample: with reply op `OP_FRAME` and body the empty JSON
object `{}`, `_do_handshake` does not succeed, yet the error raised is the
`KeyError('cmd')` from `ret_data['cmd']` — it does not carry the unexpected
payload, contradicting the claim that every non-READY combination raises an
error carrying the payload. -/
theorem C2_handshake_cex :
    doHandshakeReply OP_FRAME (JValue.jobj JObj.onil) = .fieldError (strL "cmd") ∧
    carriesPayload (doHandshakeReply OP_FRAME (JValue.jobj JObj.onil)) = false ∧
    doHandshakeReply OP_FRAME (JValue.jobj JObj.onil) ≠ .ready :=
  ⟨rfl, rfl, fun h => nomatch h⟩

/-- C2 (amended): `_do_handshake` returns successfully iff the reply has op
`OP_FRAME` and a JSON object body with `cmd == "DISPATCH"` and
`evt == "READY"`.  The transport close path runs exactly when the reply op
is `OP_CLOSE` (and then the error still carries the payload).  When the op
is neither FRAME nor CLOSE the error carries the payload.  When the op is
FRAME but the body lacks the accessed field (or is not an object), the
raised error is the key/type error of the subscription and carries only
the field name, not the payload. -/
theorem C2_handshake_amended (op : Nat) (data : JValue) :
    (doHandshakeReply op data = .ready ↔
      (op = OP_FRAME ∧ jGet data (strL "cmd") = some (.jstr (strL "DISPATCH")) ∧
        jGet data (strL "evt") = some (.jstr (strL "READY")))) ∧
    (closesTransport (doHandshakeReply op data) = true ↔ op = OP_CLOSE) ∧
    (op = OP_CLOSE → doHandshakeReply op data = .closedAndError data) ∧
    ((op ≠ OP_FRAME ∧ op ≠ OP_CLOSE) → doHandshakeReply op data = .errorWithPayload data) ∧
    (op = OP_FRAME → jGet data (strL "cmd") = none →
      doHandshakeReply op data = .fieldError (strL "cmd")) ∧
    (op = OP_FRAME → jGet data (strL "cmd") = some (.jstr (strL "DISPATCH")) →
      jGet data (strL "evt") = none →
      doHandshakeReply op data = .fieldError (strL "evt")) := by
  by_cases h1 : op = OP_FRAME
  · subst h1
    have hno : ¬ (OP_FRAME = OP_CLOSE) := by decide
    rcases hc : jGet data (strL "cmd") with _ | c
    · simp [doHandshakeReply, hc, hno, closesTransport]
    · rcases hdis : isStrVal c (strL "DISPATCH") with _ | _
      · have hcne : c ≠ .jstr (strL "DISPATCH") := by
          intro h
          subst h
          simp [isStrVal] at hdis
        simp [doHandshakeReply, hc, hdis, hno, closesTransport, hcne]
      · have hceq : c = .jstr (strL "DISPATCH") := (isStrVal_iff c (strL "DISPATCH")).mp hdis
        subst hceq
        rcases he : jGet data (strL "evt") with _ | e
        · simp [doHandshakeReply, hc, he, hdis, hno, closesTransport]
        · rcases hrdy : isStrVal e (strL "READY") with _ | _
          · have hene : e ≠ .jstr (strL "READY") := by
              intro h
              subst h
              simp [isStrVal] at hrdy
            simp [doHandshakeReply, hc, he, hdis, hrdy, hno, closesTransport, hene]
          · have heeq : e = .jstr (strL "READY") := (isStrVal_iff e (strL "READY")).mp hrdy
            subst heeq
            simp [doHandshakeReply, hc, he, hdis, hrdy, hno, closesTransport]
  · by_cases h2 : op = OP_CLOSE
    · subst h2
      simp [doHandshakeReply, h1, closesTransport]
    · simp [doHandshakeReply, h1, h2, closesTransport]

/-- C2 witness: the amended theorem applied at concrete replies — a PING
reply raises carrying the payload, and a CLOSE reply closes first. -/
theorem C2_handshake_amended_witness :
    doHandshakeReply OP_PING JValue.jnull = .errorWithPayload JValue.jnull ∧
    doHandshakeReply OP_CLOSE JValue.jnull = .closedAndError JValue.jnull :=
  ⟨(C2_handshake_amended OP_PING JValue.jnull).2.2.2.1 ⟨by decide, by decide⟩,
    (C2_handshake_amended OP_CLOSE JValue.jnull).2.2.1 (by decide)⟩

/-! ## Activity construction (`RPC.set_activity`, lines 132-213) -/

/-- Python `str(x)` on an optional string argument: `str(None)` is the
string `"None"`, `str(s)` is `s`. -/
def pyStr : Option String → String
| none => "None"
| some s => s

/-- The absence test the source applies to a field before popping it:
`x == None or x == '' or x == 'null'`. -/
def pyAbsent : Option String → Bool
| none => true
| some s => decide (s = "" ∨ s = "null")

/-- `dict.pop(key, None)` on the association-list model of a Python dict:
removes the entry for `key` (our dicts have distinct keys, so removing the
first match is exact). -/
def popKey : List (String × JValue) → String → List (String × JValue)
| [], _ => []
| (k, v) :: r, key => if k = key then r else (k, v) :: popKey r key

/-- Key-presence test on the association-list model of a Python dict. -/
def hasKey : List (String × JValue) → String → Bool
| [], _ => false
| (k, _) :: r, key => if k = key then true else hasKey r key

/-- First-match lookup on the association-list model of a Python dict. -/
def getKey : List (String × JValue) → String → Option JValue
| [], _ => none
| (k, v) :: r, key => if k = key then some v else getKey r key

/-- Embed an association list as a JSON object value. -/
def listToJObj : List (String × JValue) → JObj
| [] => .onil
| (k, v) :: r => .ocons (strL k) v (listToJObj r)

/-- Optional string as the JSON value first stored in the activity dict
(`None` stores JSON `null`; such entries are popped before serialization). -/
def optStrJ : Option String → JValue
| none => .jnull
| some s => .jstr (strL s)

/-- Optional integer timestamp as a JSON value. -/
def optIntJ : Option Int → JValue
| none => .jnull
| some t => .jnum t

/-- Optional buttons payload as a JSON value. -/
def optJ : Option JValue → JValue
| none => .jnull
| some v => v

/-- The `assets` sub-dict as first built (source lines 172-177):
`small_text`/`large_text` verbatim, `small_image`/`large_image` through
`str(...)`. -/
def buildAssets (small_text large_text small_image large_image : Option String) :
    List (String × JValue) :=
  [("small_text", optStrJ small_text),
   ("large_text", optStrJ large_text),
   ("small_image", .jstr (strL (pyStr small_image))),
   ("large_image", .jstr (strL (pyStr large_image)))]

/-- The `assets` sub-dict after the two pops of source lines 185-188
(Python mutates the nested dict inside `act`; popping before embedding
yields the same dict). -/
def buildAssetsFinal (small_text large_text small_image large_image : Option String) :
    List (String × JValue) :=
  let assets0 := buildAssets small_text large_text small_image large_image
  let assets1 := if pyAbsent small_text then popKey assets0 "small_text" else assets0
  if pyAbsent large_text then popKey assets1 "large_text" else assets1

/-- The activity dict of `set_activity` after the pop cascade of source
lines 166-192: `state`/`details` are popped when absent (None, empty, or
the `'null'` sentinel), the assets texts likewise inside `assets`;
`timestamps` and `buttons` are popped only on `None`; the image entries
are never popped. -/
def buildActivity (state details : Option String) (timestamp : Option Int)
    (small_text large_text small_image large_image : Option String)
    (buttons : Option JValue) : List (String × JValue) :=
  let act0 : List (String × JValue) :=
    [("state", optStrJ state),
     ("details", optStrJ details),
     ("timestamps", .jobj (.ocons (strL "start") (optIntJ timestamp) .onil)),
     ("assets", .jobj (listToJObj (buildAssetsFinal small_text large_text small_image large_image))),
     ("buttons", optJ buttons)]
  let act1 := if pyAbsent state then popKey act0 "state" else act0
  let act2 := if pyAbsent details then popKey act1 "details" else act1
  let act3 := if timestamp.isNone then popKey act2 "timestamps" else act2
  if buttons.isNone then popKey act3 "buttons" else act3

/-! ## Transport effects: `send`, `close`, `_connect`, `_recv_exactly` -/

/-- One observable transport effect. -/
inductive TEvent where
| written (data : List Nat) : TEvent
| closed : TEvent

/-- `RPC.send(data, op)` against a transport whose `_write` may raise:
`wFails i` says whether the i-th `_write` call of this send raises.  The
result lists the successful write events in order (header first, then
payload, as in source lines 110-116) and reports whether the send raised. -/
def sendEvents (wFails : Nat → Bool) (op : Nat) (v : JValue) : List TEvent × Bool :=
  let payload := utf8Encode (dumpsVal v)
  let header := packU32 op ++ packU32 payload.length
  if wFails 0 then ([], true)
  else if wFails 1 then ([.written header], true)
  else ([.written header, .written payload], false)

/-- `RPC.close` (lines 89-94): `try: self.send({}, op=OP_CLOSE) finally:
self._close()`.  The transport close event is appended on every path; the
flag records whether the close-frame send raised (that exception
propagates after the `finally` block runs). -/
def closeRun (wFails : Nat → Bool) : List TEvent × Bool :=
  let s := sendEvents wFails OP_CLOSE (.jobj .onil)
  (s.1 ++ [.closed], s.2)

/-- The candidate loop of `DiscordWindows._connect` (lines 234-246): `n`
candidates remain, the next index is `i`; `ok j` says whether opening pipe
`j` succeeds.  Returns the visited indices in order and the selected index
(`none` models raising `DiscordNotOpened` after exhaustion). -/
def connectGo (ok : Nat → Bool) : Nat → Nat → List Nat × Option Nat
| 0, _ => ([], none)
| n + 1, i =>
  if ok i then ([i], some i)
  else
    let r := connectGo ok n (i + 1)
    (i :: r.1, r.2)

/-- `DiscordWindows._connect`: ten candidates starting at index 0. -/
def windowsConnect (ok : Nat → Bool) : List Nat × Option Nat := connectGo ok 10 0

/-- The candidate loop of `DiscordUnix._connect` (lines 261-276):
candidates whose path does not exist are skipped with `continue`; a failed
`connect` is logged and the loop moves on; either way the next index is
tried. -/
def unixGo (pathExists connOk : Nat → Bool) : Nat → Nat → List Nat × Option Nat
| 0, _ => ([], none)
| n + 1, i =>
  if pathExists i then
    if connOk i then ([i], some i)
    else
      let r := unixGo pathExists connOk n (i + 1)
      (i :: r.1, r.2)
  else
    let r := unixGo pathExists connOk n (i + 1)
    (i :: r.1, r.2)

/-- `DiscordUnix._connect`: ten candidates starting at index 0. -/
def unixConnect (pathExists connOk : Nat → Bool) : List Nat × Option Nat :=
  unixGo pathExists connOk 10 0

/-- The `while size_remaining:` loop of `RPC._recv_exactly` (lines 80-87)
against a byte stream: the underlying `_recv` at call number `i` returns
`min (chunkLen i) size_remaining` bytes off the front of the stream (the
OS read primitives return at most the requested count; `chunkLen i = 0`
models the empty read of a closed/EOF transport).  The loop is
fuel-indexed; `none` means the fuel ran out with the loop still running.
On exit it returns the accumulated buffer and the unconsumed stream. -/
def recvExactlyGo (chunkLen : Nat → Nat) :
    Nat → Nat → List Nat → List Nat → Nat → Option (List Nat × List Nat)
| 0, _, _, _, _ => none
| _ + 1, _, stream, buf, 0 => some (buf, stream)
| f + 1, i, stream, buf, rem + 1 =>
  let k := min (chunkLen i) (rem + 1)
  let chunk := stream.take k
  recvExactlyGo chunkLen f (i + 1) (stream.drop k) (buf ++ chunk) (rem + 1 - chunk.length)

/-- Outcome of one `set_activity` call. -/
inductive SAOutcome where
| typeErr : SAOutcome
| valErr (msg : String) : SAOutcome
| ioErr : SAOutcome
| blocked : SAOutcome
| decodeErr : SAOutcome
| fieldErr (key : List Char) : SAOutcome
| activityErr (output : JValue) : SAOutcome
| ok (op : Nat) (output : JValue) : SAOutcome

/-- Python `len(x)` on an optional string: `none` models the `TypeError`
of `len(None)`. -/
def textLen : Option String → Option Nat
| none => none
| some s => some s.length

/-- `RPC.set_activity` (lines 132-213) as a function of the transport
(write-failure oracle and reply byte stream) and the environment
(`os.getpid()`, the `datetime` nonce) and the eight keyword arguments.
Returns the transport write events, the outcome, and the value assigned to
`self.get_output` (`none` when the call left it untouched).  Order as in
the source: validate `large_text` then `small_text` (raising `Error` at
3 characters or fewer, `TypeError` on `None`), build the activity and the
`SET_ACTIVITY` envelope, send it, read one frame directly (header, then
exactly `length` payload bytes — reading blocks forever if the stream is
short), JSON-decode it, cache it in `get_output`, then raise
`ActivityError` iff the reply's `evt` field equals `"ERROR"`. -/
def set_activityRun (wFails : Nat → Bool) (reply : List Nat) (pid : Int) (nonce : String)
    (state details : Option String) (timestamp : Option Int)
    (small_text large_text small_image large_image : Option String)
    (buttons : Option JValue) : List TEvent × SAOutcome × Option JValue :=
  match textLen large_text with
  | none => ([], .typeErr, none)
  | some lL =>
    if lL ≤ 3 then ([], .valErr "\"large text\" must be at least above 3 characters", none)
    else
      match textLen small_text with
      | none => ([], .typeErr, none)
      | some lS =>
        if lS ≤ 3 then ([], .valErr "\"small text\" must be at least above 3 characters", none)
        else
          let act := buildActivity state details timestamp small_text large_text
            small_image large_image buttons
          let data := JValue.jobj (.ocons (strL "cmd") (.jstr (strL "SET_ACTIVITY"))
            (.ocons (strL "args")
              (.jobj (.ocons (strL "pid") (.jnum pid)
                (.ocons (strL "activity") (.jobj (listToJObj act)) .onil)))
              (.ocons (strL "nonce") (.jstr (strL nonce)) .onil)))
          let s := sendEvents wFails OP_FRAME data
          if s.2 then (s.1, .ioErr, none)
          else if reply.length < 8 then (s.1, .blocked, none)
          else
            let op := unpackU32 ((reply.take 8).take 4)
            let len := unpackU32 ((reply.take 8).drop 4)
            let rest := reply.drop 8
            if rest.length < len then (s.1, .blocked, none)
            else
              match utf8Decode ((rest.take len).length + 1) (rest.take len) with
              | none => (s.1, .decodeErr, none)
              | some chars =>
                match loads chars with
                | none => (s.1, .decodeErr, none)
                | some output =>
                  match jGet output (strL "evt") with
                  | none => (s.1, .fieldErr (strL "evt"), some output)
                  | some e =>
                    if isStrVal e (strL "ERROR") then (s.1, .activityErr output, some output)
                    else (s.1, .ok op output, some output)

/-! ## Claims C3 and C4: activity-payload serialization -/

/-- C3 counterexample: `small_image` equal to the sentinel `'null'` — an
absent value under the claim's rule, as `pyAbsent` confirms — still
appears in the serialized assets, with the sentinel itself as its value.
The omission rule does not hold for `small_image` (nor `large_image`). -/
theorem C3_omission_cex :
    pyAbsent (some "null") = true ∧
    hasKey (buildAssetsFinal (some "null") (some "Valid!") (some "null") (some "null"))
      "small_image" = true ∧
    getKey (buildAssetsFinal (some "null") (some "Valid!") (some "null") (some "null"))
      "small_image" = some (.jstr (strL "null")) ∧
    hasKey (buildAssetsFinal (some "null") (some "Valid!") (some "null") (some "null"))
      "large_image" = true :=
  ⟨rfl, rfl, rfl, rfl⟩

/-- C3 (amended): in the serialized activity, `state`, `details`,
`small_text` and `large_text` are present exactly when their value is not
absent (absent = unset, empty string, or the `'null'` sentinel);
`timestamps` and `buttons` are present exactly when their argument is not
`None` (the sentinel rule does not apply to them); and `small_image` /
`large_image` are always present — serialized as `str(value)` — never
omitted. -/
theorem C3_omission_amended (state details : Option String) (timestamp : Option Int)
    (small_text large_text small_image large_image : Option String) (buttons : Option JValue) :
    hasKey (buildActivity state details timestamp small_text large_text small_image
        large_image buttons) "state" = !pyAbsent state ∧
    hasKey (buildActivity state details timestamp small_text large_text small_image
        large_image buttons) "details" = !pyAbsent details ∧
    hasKey (buildActivity state details timestamp small_text large_text small_image
        large_image buttons) "timestamps" = !timestamp.isNone ∧
    hasKey (buildActivity state details timestamp small_text large_text small_image
        large_image buttons) "buttons" = !buttons.isNone ∧
    getKey (buildActivity state details timestamp small_text large_text small_image
        large_image buttons) "assets" =
      some (.jobj (listToJObj (buildAssetsFinal small_text large_text small_image
        large_image))) ∧
    hasKey (buildAssetsFinal small_text large_text small_image large_image) "small_text" =
      !pyAbsent small_text ∧
    hasKey (buildAssetsFinal small_text large_text small_image large_image) "large_text" =
      !pyAbsent large_text ∧
    hasKey (buildAssetsFinal small_text large_text small_image large_image) "small_image" =
      true ∧
    hasKey (buildAssetsFinal small_text large_text small_image large_image) "large_image" =
      true := by
  by_cases h1 : pyAbsent state <;>
    by_cases h2 : pyAbsent details <;>
      by_cases h3 : timestamp.isNone <;>
        by_cases h4 : buttons.isNone <;>
          by_cases h5 : pyAbsent small_text <;>
            by_cases h6 : pyAbsent large_text <;>
              simp [buildActivity, buildAssetsFinal, buildAssets, popKey, hasKey, getKey,
                h1, h2, h3, h4, h5, h6]

/-- C4: the concrete serialization instance.  With `state=None`,
`details="hi"`, `small_text="null"`, `large_text="Valid!"`,
`small_image=None`, `large_image=None`, `timestamp=None`, `buttons=None`,
the serialized activity is exactly
`{"details":"hi","assets":{"large_text":"Valid!","small_image":"None","large_image":"None"}}` —
no `state`, `small_text`, `timestamps` or `buttons` keys, and the image
fields present as the stringified `"None"`. -/
theorem C4_concrete_serialization :
    buildActivity none (some "hi") none (some "null") (some "Valid!") none none none =
      [("details", .jstr (strL "hi")),
       ("assets", .jobj (.ocons (strL "large_text") (.jstr (strL "Valid!"))
         (.ocons (strL "small_image") (.jstr (strL "None"))
           (.ocons (strL "large_image") (.jstr (strL "None")) .onil))))] := rfl

/-! ## Claim C7: validation happens before any transport write -/

/-- C7: `set_activity` with `small_text = "ab"` (length 2 ≤ 3) and every
other argument at its default raises the validation `Error` and performs
no send: whatever the transport oracle, the reply stream, the pid and the
nonce, the event list is empty (no `_write` reached the transport) and
`get_output` is untouched. -/
theorem C7_validation_atomicity (wFails : Nat → Bool) (reply : List Nat) (pid : Int)
    (nonce : String) :
    set_activityRun wFails reply pid nonce none none none (some "ab") (some "null")
      (some "null") (some "null") none =
      ([], .valErr "\"small text\" must be at least above 3 characters", none) := rfl

/-! ## Claim C10: the empty string cannot be used to omit a text field -/

/-- C10: an empty-string `small_text` or `large_text` fails the length
validation (0 ≤ 3) before any send — so the empty string, though counted
as "absent" by the omission rule, can never reach it; the default sentinel
`"null"` (length 4) does pass validation, a send happens (two writes), and
the sentinel text fields are then omitted from the assets. -/
theorem C10_empty_string_text (wFails : Nat → Bool) (reply : List Nat) (pid : Int)
    (nonce : String) :
    (set_activityRun wFails reply pid nonce none none none (some "") (some "null")
        (some "null") (some "null") none =
      ([], .valErr "\"small text\" must be at least above 3 characters", none)) ∧
    (set_activityRun wFails reply pid nonce none none none (some "null") (some "")
        (some "null") (some "null") none =
      ([], .valErr "\"large text\" must be at least above 3 characters", none)) ∧
    (set_activityRun (fun _ => false) [] 0 "" none none none (some "null") (some "null")
        (some "null") (some "null") none).1.length = 2 ∧
    (set_activityRun (fun _ => false) [] 0 "" none none none (some "null") (some "null")
        (some "null") (some "null") none).2.1 = SAOutcome.blocked ∧
    hasKey (buildAssetsFinal (some "null") (some "null") (some "null") (some "null"))
      "small_text" = false ∧
    hasKey (buildAssetsFinal (some "null") (some "null") (some "null") (some "null"))
      "large_text" = false :=
  ⟨rfl, rfl, rfl, rfl, rfl, rfl⟩

/-! ## Claim C5: candidate-endpoint enumeration -/

/-- Characterization of the candidate loop: the visited indices are the
ascending run from `i` through the first success (or the whole window when
none succeeds), and the selected index is `find?` over that window. -/
theorem connectGo_spec (ok : Nat → Bool) : ∀ (n i : Nat),
    connectGo ok n i =
      (match (List.range' i n).find? ok with
       | some k => List.range' i (k + 1 - i)
       | none => List.range' i n,
       (List.range' i n).find? ok) := by
  intro n
  induction n with
  | zero => intro i; rfl
  | succ n ih =>
    intro i
    rw [connectGo, List.range'_succ]
    by_cases h : ok i
    · rw [if_pos h, List.find?_cons_of_pos _ h]
      simp [show i + 1 - i = 1 from by omega]
    · rw [if_neg h, List.find?_cons_of_neg _ h, ih (i + 1)]
      rcases hf : (List.range' (i + 1) n).find? ok with _ | k
      · simp
      · have hk : i + 1 ≤ k := by
          have hm := List.mem_range'_1.mp (List.mem_of_find?_eq_some hf)
          omega
        simp only
        rw [show k + 1 - i = (k - i) + 1 from by omega, List.range'_succ,
          show k + 1 - (i + 1) = k - i from by omega]

/-- The Unix loop visits and selects exactly like the Windows loop with
"path exists and connects" as the success predicate. -/
theorem unixGo_eq_connectGo (pathExists connOk : Nat → Bool) : ∀ (n i : Nat),
    unixGo pathExists connOk n i = connectGo (fun j => pathExists j && connOk j) n i := by
  intro n
  induction n with
  | zero => intro i; rfl
  | succ n ih =>
    intro i
    rw [unixGo, connectGo]
    by_cases he : pathExists i <;> by_cases hc : connOk i <;> simp [he, hc, ih]

/-- C5: both transport variants try candidate indices strictly ascending
from 0 through 9; the first success stops the enumeration (the visited
indices are exactly `0..first success`), and when all ten candidates fail
the result is the `DiscordNotOpened` outcome (`none`) with all ten indices
visited.  In particular, when only index 3 succeeds, exactly indices
0, 1, 2, 3 are attempted. -/
theorem C5_endpoint_enumeration :
    (∀ ok : Nat → Bool,
      windowsConnect ok =
        (match (List.range 10).find? ok with
         | some k => List.range (k + 1)
         | none => List.range 10,
         (List.range 10).find? ok)) ∧
    (∀ pathExists connOk : Nat → Bool,
      unixConnect pathExists connOk =
        (match (List.range 10).find? (fun j => pathExists j && connOk j) with
         | some k => List.range (k + 1)
         | none => List.range 10,
         (List.range 10).find? (fun j => pathExists j && connOk j))) ∧
    windowsConnect (fun i => i == 3) = ([0, 1, 2, 3], some 3) ∧
    windowsConnect (fun _ => false) = (List.range 10, none) ∧
    unixConnect (fun i => i == 3) (fun _ => true) = ([0, 1, 2, 3], some 3) ∧
    unixConnect (fun _ => false) (fun _ => true) = (List.range 10, none) := by
  have hw : ∀ ok : Nat → Bool,
      windowsConnect ok =
        (match (List.range 10).find? ok with
         | some k => List.range (k + 1)
         | none => List.range 10,
         (List.range 10).find? ok) := by
    intro ok
    rw [windowsConnect, connectGo_spec, List.range_eq_range']
    rcases hf : (List.range' 0 10).find? ok with _ | k
    · simp
    · simp [List.range_eq_range']
  refine ⟨hw, ?_, rfl, rfl, rfl, rfl⟩
  intro pathExists connOk
  rw [unixConnect, unixGo_eq_connectGo]
  exact hw _

/-! ## Claim C6: close always releases the transport -/

/-- C6: `RPC.close` attempts to send a CLOSE frame with empty payload
`{}` — when the writes succeed, the wire sees exactly the 8-byte header
`(op=OP_CLOSE, length=2)` and the two bytes of `"{}"` — and, whether the
send succeeds or raises at either write, the transport close primitive
`_close` always runs, as the final event of every execution. -/
theorem C6_close_guaranteed_cleanup :
    (∀ wFails : Nat → Bool,
      TEvent.closed ∈ (closeRun wFails).1 ∧
      (closeRun wFails).1.getLast? = some TEvent.closed) ∧
    (closeRun (fun _ => false)).1 =
      [TEvent.written (packU32 OP_CLOSE ++ packU32 2),
       TEvent.written (utf8Encode (dumpsVal (JValue.jobj JObj.onil))),
       TEvent.closed] ∧
    (closeRun (fun _ => false)).2 = false ∧
    (closeRun (fun _ => true)).1 = [TEvent.closed] ∧
    (closeRun (fun _ => true)).2 = true := by
  refine ⟨?_, rfl, rfl, rfl, rfl⟩
  intro w
  constructor
  · simp [closeRun]
  · simp [closeRun, List.getLast?_concat]

/-! ## Claims C8 and C9: the exact-read accumulation loop -/

/-- When every `_recv` call yields at least one byte and the stream holds
enough data, the loop returns the first `rem` bytes and consumes exactly
them, for any fuel above `rem`. -/
theorem recvExactlyGo_ok (chunkLen : Nat → Nat) (hpos : ∀ j, 1 ≤ chunkLen j) :
    ∀ (f i : Nat) (stream buf : List Nat) (rem : Nat),
      rem ≤ stream.length → rem < f →
      recvExactlyGo chunkLen f i stream buf rem =
        some (buf ++ stream.take rem, stream.drop rem) := by
  intro f
  induction f with
  | zero => intro i stream buf rem h1 h2; omega
  | succ f ih =>
    intro i stream buf rem h1 h2
    obtain rfl | ⟨r, rfl⟩ : rem = 0 ∨ ∃ r, rem = r + 1 := by
      rcases rem with _ | r
      · exact Or.inl rfl
      · exact Or.inr ⟨r, rfl⟩
    · simp [recvExactlyGo]
    · rw [recvExactlyGo]
      have hk1 : 1 ≤ min (chunkLen i) (r + 1) := by
        have := hpos i
        omega
      have hk2 : min (chunkLen i) (r + 1) ≤ r + 1 := Nat.min_le_right _ _
      have hlen : (stream.take (min (chunkLen i) (r + 1))).length =
          min (chunkLen i) (r + 1) := by
        simp [List.length_take]
        omega
      rw [hlen]
      rw [ih (i + 1) (stream.drop (min (chunkLen i) (r + 1)))
        (buf ++ stream.take (min (chunkLen i) (r + 1)))
        (r + 1 - min (chunkLen i) (r + 1))
        (by simp [List.length_drop]; omega) (by omega)]
      rw [List.append_assoc, List.drop_drop]
      rw [show min (chunkLen i) (r + 1) + (r + 1 - min (chunkLen i) (r + 1)) = r + 1
        from by omega]
      rw [← List.take_add,
        show min (chunkLen i) (r + 1) + (r + 1 - min (chunkLen i) (r + 1)) = r + 1
        from by omega]

/-- C8: for every requested size `n`, `_recv_exactly(n)` returns exactly
`n` bytes — the first `n` bytes of the stream — by accumulating partial
reads, for every chunking behavior in which each `_recv` call yields at
least one byte (and at most the requested count, as the read primitives
guarantee), however the data is split — including one byte per call. -/
theorem C8_recv_exact_accumulation (chunkLen : Nat → Nat) (stream : List Nat) (n f : Nat)
    (hpos : ∀ j, 1 ≤ chunkLen j) (hs : n ≤ stream.length) (hf : n < f) :
    recvExactlyGo chunkLen f 0 stream [] n = some (stream.take n, stream.drop n) ∧
    (stream.take n).length = n := by
  constructor
  · simpa using recvExactlyGo_ok chunkLen hpos f 0 stream [] n hs hf
  · simp [List.length_take]
    omega

/-- C8 witness: a transport stub yielding one byte per call delivers a
3-byte stream's first two bytes in two reads. -/
theorem C8_recv_exact_accumulation_witness :
    (∀ j : Nat, 1 ≤ (fun _ => 1 : Nat → Nat) j) ∧
    (2 : Nat) ≤ ([5, 6, 7] : List Nat).length ∧ (2 : Nat) < 3 ∧
    recvExactlyGo (fun _ => 1) 3 0 [5, 6, 7] [] 2 = some ([5, 6], [7]) := by
  refine ⟨fun j => le_refl 1, by decide, by decide, ?_⟩
  have h := C8_recv_exact_accumulation (fun _ => 1) [5, 6, 7] 2 3 (fun j => le_refl 1)
    (by decide) (by decide)
  simpa using h.1

/-- C9 counterexample: one empty chunk does not make the loop run forever.
With a transport whose first `_recv` returns the empty chunk but later
calls return one byte, `_recv_exactly(2)` still terminates with the two
requested bytes — refuting the claim that the loop never terminates if
`_recv` ever returns an empty chunk. -/
theorem C9_termination_cex :
    (min ((fun j => if j = 0 then 0 else 1) 0) 2 = 0) ∧
    recvExactlyGo (fun j => if j = 0 then 0 else 1) 4 0 [5, 6] [] 2 = some ([5, 6], []) :=
  ⟨rfl, rfl⟩

/-- C9 (amended): if from some call onward `_recv` always returns the
empty chunk — as a closed/EOF transport does — while bytes are still
owed, the loop never terminates: no amount of fuel makes it return.  So
`recv` and `set_activity` can block forever on a peer that closes the
connection mid-frame. -/
theorem C9_eof_divergence (chunkLen : Nat → Nat) (i0 : Nat)
    (hEOF : ∀ j, i0 ≤ j → chunkLen j = 0) :
    ∀ (f i : Nat) (stream buf : List Nat) (rem : Nat), i0 ≤ i → 0 < rem →
      recvExactlyGo chunkLen f i stream buf rem = none := by
  intro f
  induction f with
  | zero => intro i stream buf rem h1 h2; rfl
  | succ f ih =>
    intro i stream buf rem h1 h2
    obtain ⟨r, rfl⟩ : ∃ r, rem = r + 1 := ⟨rem - 1, by omega⟩
    rw [recvExactlyGo, hEOF i h1]
    simp only [Nat.zero_min, List.take_zero, List.length_nil, List.drop_zero,
      List.append_nil, Nat.sub_zero]
    exact ih (i + 1) stream buf (r + 1) (by omega) h2

/-- C9 witness: a transport closed from the start never satisfies a
1-byte read, whatever the fuel tried. -/
theorem C9_eof_divergence_witness :
    (∀ j : Nat, 0 ≤ j → (fun _ => 0 : Nat → Nat) j = 0) ∧ (0 : Nat) < 1 ∧
    recvExactlyGo (fun _ => 0) 5 0 [1, 2, 3] [] 1 = none :=
  ⟨fun j _ => rfl, by decide,
    C9_eof_divergence (fun _ => 0) 0 (fun j _ => rfl) 5 0 [1, 2, 3] [] 1 (Nat.le_refl 0)
      (by decide)⟩
